import Mathlib

/-!
Verification development for the terminal text editor core
(gap-buffer text store, VT tokenizer, input classifier, immediate-mode TUI).

The definitions below are shallow embeddings of the C sources:
  - helpers.h / helpers.c : Point, Size, Rect, min/max/clamp, rect functions
  - buffer.h / buffer.c   : TextBuffer, selection, cursor motion, write/undo/redo
  - vt.h / vt.c           : VT escape-sequence tokenizer
  - input.c               : input classifier
  - tui.c                 : scrollarea layout, ui_root_reset hit testing

Machine integers: CoordType is `i32` in the source; all coordinate arithmetic
in the modelled code paths stays far inside the i32 range, so coordinates are
modelled as `Int`.  Byte values (`c8` = `u8`) are modelled as `Nat` (< 256 by
construction of the inputs; the comparisons used by the code are order
comparisons that agree with unsigned comparisons).  Sizes/offsets (`usize`)
are modelled as `Nat`.

The Unicode oracle (`ucd.h`) has no implementation under src/; the functions
prefixed `ucd` below are modelled from the spec (section 4.1), as noted in
their doc comments.
-/

set_option maxRecDepth 8000

namespace Edit

/-- Byte of the input stream (`c8` = `u8` in helpers.h). -/
abbrev Byte := Nat

/-- `Point` from helpers.h: position in signed cells. -/
structure Point where
  x : Int
  y : Int
deriving Repr, DecidableEq

/-- `Size` from helpers.h. -/
structure Size where
  width : Int
  height : Int
deriving Repr, DecidableEq

/-- `Rect` from helpers.h: half-open `(left, top, right, bottom)`. -/
structure Rect where
  left : Int
  top : Int
  right : Int
  bottom : Int
deriving Repr, DecidableEq

/-- `clamp_i32` from helpers.h: `v < lo ? lo : (v > hi ? hi : v)`. -/
def clampI32 (v lo hi : Int) : Int :=
  if v < lo then lo else if v > hi then hi else v

/-- `rect_is_empty` from helpers.c. -/
def rectIsEmpty (r : Rect) : Bool :=
  r.left ≥ r.right || r.top ≥ r.bottom

/-- `rect_contains` from helpers.c. -/
def rectContains (r : Rect) (p : Point) : Bool :=
  p.x ≥ r.left && p.x < r.right && p.y ≥ r.top && p.y < r.bottom

/-- `rect_intersect` from helpers.c (scalar branch); the result never has
negative extent. -/
def rectIntersect (lhs rhs : Rect) : Rect :=
  let l := max lhs.left rhs.left
  let t := max lhs.top rhs.top
  let r := min lhs.right rhs.right
  let b := min lhs.bottom rhs.bottom
  { left := l, top := t, right := max l r, bottom := max t b }

end Edit

namespace Edit

/-! ### Text buffer data model (buffer.h) -/

/-- `TextBufferCursor` from buffer.h. -/
structure TextBufferCursor where
  offset : Nat
  logical_pos : Point
  visual_pos : Point
deriving Repr, DecidableEq

/-- `TextBufferSelectionState` from buffer.h. -/
inductive TextBufferSelectionState where
  | none
  | maybe
  | active
  | done
deriving Repr, DecidableEq

/-- `TextBufferSelection` from buffer.h. -/
structure TextBufferSelection where
  beg : Point
  yend : Point
  state : TextBufferSelectionState
deriving Repr, DecidableEq

/-- `TextBufferChange` from buffer.h.  `prev`/`next` pointers are represented
by indices into the append-only store of change records (the C stores the
records consecutively in the undo arena and never frees them); `none`
represents a NULL pointer. -/
structure TextBufferChange where
  prev : Option Nat
  next : Option Nat
  cursor : TextBufferCursor
  removed : List Byte
  inserted : List Byte
deriving Repr, DecidableEq

/-- `TextBuffer` from buffer.h.

The byte storage is represented content-wise: `pre` is the text before the
gap (native offsets `[0, gap_off)`) and `post` the text after it (native
offsets `[gap_off, text_length)`); `gap_off = pre.length` and
`text_length = pre.length + post.length` are derived quantities, which
mirrors the C invariant that the pre-gap range is `[0, gap_off)` and the
post-gap range spans `text_length - gap_off` bytes.  `gap_len` is carried
explicitly because the code branches on it.

The undo arena is represented by `undo_store` (the sequence of change
records in allocation order; record 0 sits at `undo_base`) and `undo_tail`
(index of the record the C `undo_tail` pointer designates, `none` = NULL).
`undo_usage`/`undo_commit` byte bookkeeping mirrors the C arithmetic with
`sizeof(TextBufferChange)` = 88 on x64. -/
structure TextBuffer where
  pre : List Byte
  post : List Byte
  gap_len : Nat
  undo_store : List TextBufferChange
  undo_tail : Option Nat
  undo_usage : Nat
  undo_commit : Nat
  stats_lines : Int
  cursor : TextBufferCursor
  selection : TextBufferSelection
  word_wrap_columns : Int
  dirty : Bool
  overtype : Bool
deriving Repr, DecidableEq

/-- `tb->gap_off` (derived, see `TextBuffer`). -/
def TextBuffer.gap_off (tb : TextBuffer) : Nat := tb.pre.length

/-- `tb->text_length` (derived, see `TextBuffer`). -/
def TextBuffer.text_length (tb : TextBuffer) : Nat := tb.pre.length + tb.post.length

/-- A fresh buffer as initialised by `text_buffer_create` (buffer.c):
everything zero except `word_wrap_columns = -1`. -/
def textBufferCreate : TextBuffer where
  pre := []
  post := []
  gap_len := 0
  undo_store := []
  undo_tail := none
  undo_usage := 0
  undo_commit := 0
  stats_lines := 0
  cursor := { offset := 0, logical_pos := ⟨0, 0⟩, visual_pos := ⟨0, 0⟩ }
  selection := { beg := ⟨0, 0⟩, yend := ⟨0, 0⟩, state := .none }
  word_wrap_columns := -1
  dirty := false
  overtype := false

/-! ### Selection (buffer.c lines 342-358) -/

/-- `text_buffer_selection_update` from buffer.c. -/
def textBufferSelectionUpdate (tb : TextBuffer) (pos : Point) : TextBuffer :=
  if tb.selection.state = .none ∨ tb.selection.state = .done then
    { tb with selection := { tb.selection with state := .maybe, beg := pos } }
  else
    { tb with selection := { tb.selection with state := .active, yend := pos } }

/-- `text_buffer_selection_end` from buffer.c; returns the `bool` result
together with the updated buffer. -/
def textBufferSelectionEnd (tb : TextBuffer) : Bool × TextBuffer :=
  let active := tb.selection.state = .active
  (active, { tb with selection := { tb.selection with state := if active then .done else .none } })

end Edit

namespace Edit

/-! ### Scrollarea layout (tui.c) -/

/-- `UiNodeType` from tui.c. -/
inductive UiContentType where
  | container
  | text
  | textarea
  | scrollarea
deriving Repr, DecidableEq

/-- `outer_to_inner` from tui.c, with the fields of the node it reads
(`attributes.bordered`, `attributes.padding`, `content_type`) passed
explicitly.  A border eats one cell on every side; a scrollarea reserves one
extra cell on the right for the scroll track. -/
def outerToInner (bordered : Bool) (padding : Rect) (contentType : UiContentType)
    (outer : Rect) : Rect :=
  let l : Int := if bordered then 1 else 0
  let t : Int := if bordered then 1 else 0
  let r : Int := if bordered || contentType = .scrollarea then 1 else 0
  let b : Int := if bordered then 1 else 0
  { left := outer.left + padding.left + l
    top := outer.top + padding.top + t
    right := outer.right - (padding.right + r)
    bottom := outer.bottom - (padding.bottom + b) }

/-- Result of laying out the single child of a scrollarea. -/
structure ScrollLayoutResult where
  childOuter : Rect
  childInner : Rect
  childOuterClipped : Rect
  childInnerClipped : Rect
  scroll : Point
deriving Repr, DecidableEq

/-- The scrollarea branch of `ui_layout_children` (tui.c lines 253-277).
`ui_layout_children` takes this branch when the node's `content_type` is
SCROLLAREA, it has a child (`child_first != NULL`), and its `inner` rect is
non-empty.  Inputs are the fields the branch reads: the scrollarea's `inner`
and `inner_clipped` rects and stored scroll offset (`content.scrollarea`),
and the child's `intrinsic_size` plus the attributes its `outer_to_inner`
uses. -/
def uiLayoutChildrenScrollarea (inner innerClipped : Rect) (scroll : Point)
    (childIntrinsic : Size) (childBordered : Bool) (childPadding : Rect)
    (childContentType : UiContentType) : ScrollLayoutResult :=
  let sx := inner.right - inner.left
  let sy := inner.bottom - inner.top
  let cx := max childIntrinsic.width sx
  let cy := max childIntrinsic.height sy
  let ox := clampI32 scroll.x 0 (cx - sx)
  let oy := clampI32 scroll.y 0 (cy - sy)
  let childOuter : Rect :=
    { left := inner.left - ox
      top := inner.top - oy
      right := inner.left - ox + cx
      bottom := inner.top - oy + cy }
  { childOuter := childOuter
    childInner := outerToInner childBordered childPadding childContentType childOuter
    childOuterClipped := rectIntersect childOuter innerClipped
    childInnerClipped :=
      rectIntersect (outerToInner childBordered childPadding childContentType childOuter)
        innerClipped
    scroll := ⟨ox, oy⟩ }

/-- One frame of the scroll-saturation scenario of the spec: a SCROLL event of
+3 is applied to the stored offset (`ui_scrollarea_end`, tui.c lines
1496-1506) and the next layout clamps it (lines 263-264, 275-276).  Content
height 100, viewport height 10, i.e. `inner = (0,0,10,10)` and child
intrinsic size 10 by 100. -/
def scrollareaScenarioStep (y : Int) : Int :=
  (uiLayoutChildrenScrollarea ⟨0, 0, 10, 10⟩ ⟨0, 0, 10, 10⟩ ⟨0, y + 3⟩
    ⟨10, 100⟩ false ⟨0, 0, 0, 0⟩ .container).scroll.y

/-- C5: after the scrollarea layout branch runs, the child's outer rect has
size `max(intrinsic, inner)` in each dimension, the stored scroll offset is
clamped into `[0, content - viewport]` in each dimension, and in the concrete
scenario (content height 100, viewport height 10) repeatedly adding SCROLL +3
saturates the stored `scrollarea.y` at 90. -/
theorem scrollarea_layout_clamps (inner innerClipped : Rect) (scroll : Point)
    (ci : Size) (cb : Bool) (cp : Rect) (ct : UiContentType) :
    (let res := uiLayoutChildrenScrollarea inner innerClipped scroll ci cb cp ct
     let sx := inner.right - inner.left
     let sy := inner.bottom - inner.top
     (res.childOuter.right - res.childOuter.left = max ci.width sx ∧
      res.childOuter.bottom - res.childOuter.top = max ci.height sy) ∧
     (0 ≤ res.scroll.x ∧ res.scroll.x ≤ max ci.width sx - sx ∧
      0 ≤ res.scroll.y ∧ res.scroll.y ≤ max ci.height sy - sy)) ∧
    (scrollareaScenarioStep^[30] 0 = 90 ∧ scrollareaScenarioStep 90 = 90) := by
  simp only [uiLayoutChildrenScrollarea, clampI32]
  refine ⟨⟨⟨by ring, by ring⟩, ?_, ?_, ?_, ?_⟩, by decide, by decide⟩ <;>
    · split
      · omega
      · split <;> omega

/-- C3: `text_buffer_selection_update(pos)` sends NONE/DONE to MAYBE anchoring
`beg` (leaving `end` alone) and MAYBE/ACTIVE to ACTIVE setting `end` (leaving
`beg` alone); `text_buffer_selection_end()` returns true and moves to DONE
exactly from ACTIVE, otherwise returns false and moves to NONE. -/
theorem selection_state_machine (tb : TextBuffer) (pos : Point) :
    ((tb.selection.state = .none ∨ tb.selection.state = .done) →
      (textBufferSelectionUpdate tb pos).selection.state = .maybe ∧
      (textBufferSelectionUpdate tb pos).selection.beg = pos ∧
      (textBufferSelectionUpdate tb pos).selection.yend = tb.selection.yend) ∧
    ((tb.selection.state = .maybe ∨ tb.selection.state = .active) →
      (textBufferSelectionUpdate tb pos).selection.state = .active ∧
      (textBufferSelectionUpdate tb pos).selection.yend = pos ∧
      (textBufferSelectionUpdate tb pos).selection.beg = tb.selection.beg) ∧
    ((textBufferSelectionEnd tb).1 = true ↔ tb.selection.state = .active) ∧
    ((textBufferSelectionEnd tb).2.selection.state =
      if tb.selection.state = .active then .done else .none) := by
  unfold textBufferSelectionUpdate textBufferSelectionEnd
  rcases tb with ⟨_, _, _, _, _, _, _, _, _, ⟨b, e, st⟩, _, _, _⟩
  cases st <;> simp

/-- Witness for `selection_state_machine` at a concrete buffer and position. -/
theorem selection_state_machine_witness :
    (textBufferSelectionUpdate textBufferCreate ⟨3, 4⟩).selection.state = .maybe ∧
    (textBufferSelectionUpdate textBufferCreate ⟨3, 4⟩).selection.beg = ⟨3, 4⟩ := by
  have h := selection_state_machine textBufferCreate ⟨3, 4⟩
  exact ⟨(h.1 (Or.inl rfl)).1, (h.1 (Or.inl rfl)).2.1⟩

end Edit

namespace Edit

/-! ### VT tokenizer (vt.h, the unnamed vt source file)

The tokenizer is `vt_parse_next_token(state, beg, end)`: it consumes bytes
until it has produced one token (TEXT, CTRL, ESC, SS3, CSI, OSC, DCS) or
exhausted the buffer (PENDING).  A call is modelled as a function from the
machine state and the remaining input to the new machine state, an optional
token (`none` = PENDING) and the unconsumed suffix.

The C stores OSC/DCS payloads as `(pointer, length)` spans into the caller's
buffer; when a sequence spans two calls the span mixes pointers into two
different allocations (flagged as an open question in spec section 9), so the
model carries OSC/DCS tokens by kind only.  TEXT payloads never span calls
and are carried as byte lists. -/

/-- `VtParserStateKind` from vt.h (the `_state` field). -/
inductive VtMode where
  | ground
  | esc
  | ss3
  | csi
  | osc
  | dcs
  | oscEsc
  | dcsEsc
deriving DecidableEq

/-- `CsiState` from vt.h: the 32 `i32` parameter slots (as a total function on
`Fin 32`; the accumulation code saturates values at 0xFFFF), the parameter
count, and the private and final bytes. -/
structure CsiState where
  params : Fin 32 → Nat
  paramCount : Nat
  privateByte : Byte
  finalByte : Byte
deriving DecidableEq

/-- Tokenizer state carried across calls: `_state` plus the CSI accumulator
(which must survive a PENDING return mid-CSI). -/
structure VtState where
  mode : VtMode
  csi : CsiState
deriving DecidableEq

/-- A produced token (`VtTokenType` plus the payload fields of
`VtParserState` that the token makes valid). -/
inductive VtToken where
  | text (content : List Byte)
  | ctrl (b : Byte)
  | esc (b : Byte)
  | ss3 (b : Byte)
  | csi (s : CsiState)
  | osc
  | dcs
deriving DecidableEq

/-- Result of one `vt_parse_next_token` call: new state, token emitted
(`none` = PENDING), unconsumed input. -/
abbrev VtResult := VtState × Option VtToken × List Byte

/-- GROUND text-run predicate: `*it >= 0x20 && *it != 0x7f` (`c8` is
unsigned, so bytes 0x80-0xFF are text). -/
def isTextByte (b : Byte) : Bool := decide (0x20 ≤ b) && decide (b ≠ 0x7f)

/-- CSI parameter digit: ASCII 0-9. -/
def isCsiDigitByte (b : Byte) : Bool := decide (48 ≤ b ∧ b ≤ 57)

/-- OSC/DCS scan predicate: the tight loop runs while the byte is neither BEL
(0x07) nor ESC (0x1B). -/
def isOscPlainByte (b : Byte) : Bool := !(decide (b = 7)) && !(decide (b = 27))

/-- One decimal digit folded into a parameter slot:
`*dst = min(*dst * 10 + (*it - '0'), 0xffff)`. -/
def csiAccum (v : Nat) (d : Byte) : Nat := min (v * 10 + (d - 48)) 0xffff

/-- The CSI state after the reset performed on `ESC [`.  The C zeroes
`params[0..param_count)` in a loop and clears `private_byte`/`final_byte`;
since slots at and above `param_count` are already zero this yields the
all-zero accumulator.  (When more than 32 parameters were counted the C loop
additionally writes past the end of `params`, clobbering `param_count`
itself; that out-of-bounds write is not reproduced.) -/
def csiReset : CsiState :=
  { params := fun _ => 0, paramCount := 0, privateByte := 0, finalByte := 0 }

/-- `dropWhile` never lengthens a list (used for termination of the scan
loops). -/
theorem dropWhile_length_le {α : Type} (p : α → Bool) (l : List α) :
    (l.dropWhile p).length ≤ l.length := by
  induction l with
  | nil => simp
  | cons a t ih => by_cases h : p a <;> simp [List.dropWhile_cons, h] <;> omega

/-- If a scan consumes all of `l`, scanning `l ++ l'` continues into `l'`. -/
theorem dropWhile_append_nil {α : Type} {p : α → Bool} {l : List α} (l' : List α)
    (h : l.dropWhile p = []) : (l ++ l').dropWhile p = l'.dropWhile p := by
  induction l with
  | nil => simp
  | cons a t ih =>
    by_cases ha : p a
    · simp only [List.dropWhile_cons, ha] at h ⊢
      simp only [List.cons_append, List.dropWhile_cons, ha]
      exact ih h
    · simp [List.dropWhile_cons, ha] at h

/-- If a scan consumes all of `l`, the matching prefix of `l ++ l'` is `l`
followed by the matching prefix of `l'`. -/
theorem takeWhile_append_nil {α : Type} {p : α → Bool} {l : List α} (l' : List α)
    (h : l.dropWhile p = []) : (l ++ l').takeWhile p = l ++ l'.takeWhile p := by
  induction l with
  | nil => simp
  | cons a t ih =>
    by_cases ha : p a
    · simp only [List.dropWhile_cons, ha] at h ⊢
      simp only [List.cons_append, List.takeWhile_cons, ha, if_true]
      rw [ih h]
    · simp [List.dropWhile_cons, ha] at h

/-- If a scan of `l` stops at an element, scanning `l ++ l'` stops at the same
element. -/
theorem dropWhile_append_cons {α : Type} {p : α → Bool} {l : List α} (l' : List α)
    {b : α} {r : List α} (h : l.dropWhile p = b :: r) :
    (l ++ l').dropWhile p = b :: (r ++ l') := by
  induction l with
  | nil => simp at h
  | cons a t ih =>
    by_cases ha : p a
    · simp only [List.dropWhile_cons, ha] at h
      simp only [List.cons_append, List.dropWhile_cons, ha, if_true]
      exact ih h
    · simp [List.dropWhile_cons, ha] at h
      obtain ⟨rfl, rfl⟩ := h
      simp [List.dropWhile_cons, ha]

/-- If a scan of `l` stops at an element, the matching prefix of `l ++ l'` is
that of `l`. -/
theorem takeWhile_append_cons {α : Type} {p : α → Bool} {l : List α} (l' : List α)
    {b : α} {r : List α} (h : l.dropWhile p = b :: r) :
    (l ++ l').takeWhile p = l.takeWhile p := by
  induction l with
  | nil => simp at h
  | cons a t ih =>
    by_cases ha : p a
    · simp only [List.dropWhile_cons, ha] at h
      simp only [List.cons_append, List.takeWhile_cons, ha, if_true]
      rw [ih h]
    · simp [List.takeWhile_cons, ha]

/-- Termination helper: a scan that stopped and then consumed one more
element leaves a strictly shorter list. -/
theorem dropWhile_cons_cons_length {α : Type} {p : α → Bool} {l : List α} {b c : α}
    {r : List α} (h : l.dropWhile p = b :: c :: r) : (c :: r).length < l.length := by
  have hle := dropWhile_length_le p l
  rw [h] at hle
  cases l with
  | nil => simp at h
  | cons x xs =>
    simp at hle ⊢
    omega

/-- The digit-run phase of the CSI loop: fold a run of decimal digits into
the current parameter slot (`i32* dst = &state->csi.params[param_count]`),
provided fewer than 32 parameters have been counted; otherwise the digits
are skipped. -/
def csiDigits (cs : CsiState) (digits : List Byte) : CsiState :=
  if h : cs.paramCount < 32 then
    { cs with
      params :=
        Function.update cs.params ⟨cs.paramCount, h⟩
          (digits.foldl csiAccum (cs.params ⟨cs.paramCount, h⟩)) }
  else cs

/-- State change on the CSI final byte: record it and count the last
parameter. -/
def csiFinal (cs : CsiState) (b : Byte) : CsiState :=
  { cs with finalByte := b, paramCount := cs.paramCount + 1 }

/-- State change on a CSI non-final, non-digit byte: `;` advances the slot,
`<`..`?` records the private byte, anything else is ignored. -/
def csiSep (cs : CsiState) (b : Byte) : CsiState :=
  if b = 59 then { cs with paramCount := cs.paramCount + 1 }
  else if 60 ≤ b ∧ b ≤ 63 then { cs with privateByte := b }
  else cs

/-- The `VT_PARSER_STATE_KIND_CSI` case of `vt_parse_next_token`: repeatedly
parse a digit run into the current slot (skipping digits once all 32 slots
are used), then dispatch on the following byte: a final byte in
`[0x40, 0x7e]` emits the CSI token, `;` advances the slot, `<`..`?` records
the private byte, anything else is ignored; end of input returns PENDING. -/
def csiGo (cs : CsiState) (input : List Byte) : VtResult :=
  let cs1 := csiDigits cs (input.takeWhile isCsiDigitByte)
  match hr : input.dropWhile isCsiDigitByte with
  | [] => (⟨.csi, cs1⟩, none, [])
  | b :: rest2 =>
    if 0x40 ≤ b ∧ b ≤ 0x7e then
      let cs2 := csiFinal cs1 b
      (⟨.ground, cs2⟩, some (.csi cs2), rest2)
    else
      csiGo (csiSep cs1 b) rest2
termination_by input.length
decreasing_by
  have h := dropWhile_length_le isCsiDigitByte input
  rw [hr] at h
  simp at h ⊢
  omega

/-- The `VT_PARSER_STATE_KIND_SS3` case: the next byte is the SS3 token. -/
def ss3Go (cs : CsiState) (input : List Byte) : VtResult :=
  match input with
  | [] => (⟨.ss3, cs⟩, none, [])
  | b :: rest => (⟨.ground, cs⟩, some (.ss3 b), rest)

/-- OSC and DCS share one code path; `isOsc` selects which pair of
states/tokens is meant. -/
def oscToken (isOsc : Bool) : VtToken := if isOsc then .osc else .dcs

/-- The continuing-scan state for OSC/DCS. -/
def oscMode (isOsc : Bool) : VtMode := if isOsc then .osc else .dcs

/-- The saw-ESC-at-end-of-buffer state for OSC/DCS. -/
def oscEscMode (isOsc : Bool) : VtMode := if isOsc then .oscEsc else .dcsEsc

/-- The `VT_PARSER_STATE_KIND_OSC`/`DCS` case: scan to BEL or ESC.  Reaching
the end of the buffer emits the (partial) token with the scan state kept, so
the sequence resumes next call; BEL terminates; ESC terminates only when
followed by `\` (ST) - an ESC at the very end of the buffer parks the machine
in the OSC_ESC/DCS_ESC state, and an ESC followed by anything else stays
inside the payload and scanning continues. -/
def oscGo (isOsc : Bool) (cs : CsiState) (input : List Byte) : VtResult :=
  match input with
  | [] => (⟨oscMode isOsc, cs⟩, none, [])
  | q :: qrest =>
    match hr : (q :: qrest).dropWhile isOscPlainByte with
    | [] => (⟨oscMode isOsc, cs⟩, some (oscToken isOsc), [])
    | b :: rest2 =>
      if b = 27 then
        match hr2 : rest2 with
        | [] => (⟨oscEscMode isOsc, cs⟩, some (oscToken isOsc), [])
        | c :: rest3 =>
          if c = 92 then (⟨.ground, cs⟩, some (oscToken isOsc), rest3)
          else oscGo isOsc cs (c :: rest3)
      else (⟨.ground, cs⟩, some (oscToken isOsc), rest2)
termination_by input.length
decreasing_by
  exact dropWhile_cons_cons_length hr

/-- The `VT_PARSER_STATE_KIND_OSC_ESC`/`DCS_ESC` case: a `\` consumes the
byte and emits the token, but the C returns without writing `_state`, so the
machine stays parked in OSC_ESC/DCS_ESC (unlike the in-buffer `ESC \` path
of the scan, which does return to GROUND); any other byte falls back into
the OSC/DCS scan without being consumed. -/
def oscEscGo (isOsc : Bool) (cs : CsiState) (input : List Byte) : VtResult :=
  match input with
  | [] => (⟨oscEscMode isOsc, cs⟩, none, [])
  | b :: rest =>
    if b = 92 then (⟨oscEscMode isOsc, cs⟩, some (oscToken isOsc), rest)
    else oscGo isOsc cs input

/-- The `VT_PARSER_STATE_KIND_ESC` case: route on the byte after ESC. -/
def escGo (cs : CsiState) (input : List Byte) : VtResult :=
  match input with
  | [] => (⟨.esc, cs⟩, none, [])
  | b :: rest =>
    if b = 91 then csiGo csiReset rest
    else if b = 93 then oscGo true cs rest
    else if b = 79 then ss3Go cs rest
    else if b = 80 then oscGo false cs rest
    else (⟨.ground, cs⟩, some (.esc b), rest)

/-- The `VT_PARSER_STATE_KIND_GROUND` case: ESC starts a sequence, a C0 byte
or DEL is a CTRL token, anything else starts a TEXT run that extends as far
as the text bytes do. -/
def groundGo (cs : CsiState) (input : List Byte) : VtResult :=
  match input with
  | [] => (⟨.ground, cs⟩, none, [])
  | b :: rest =>
    if b = 27 then escGo cs rest
    else if b < 32 ∨ b = 127 then (⟨.ground, cs⟩, some (.ctrl b), rest)
    else (⟨.ground, cs⟩, some (.text (input.takeWhile isTextByte)),
      input.dropWhile isTextByte)

/-- `vt_parse_next_token` (one call): dispatch on `state->_state`. -/
def parseOne (s : VtState) (input : List Byte) : VtResult :=
  match s.mode with
  | .ground => groundGo s.csi input
  | .esc => escGo s.csi input
  | .ss3 => ss3Go s.csi input
  | .csi => csiGo s.csi input
  | .osc => oscGo true s.csi input
  | .dcs => oscGo false s.csi input
  | .oscEsc => oscEscGo true s.csi input
  | .dcsEsc => oscEscGo false s.csi input

/-- Initial tokenizer state (the zeroed `VtParserState`). -/
def vtInit : VtState := ⟨.ground, csiReset⟩

/-- A `csiGo` call that produced a token consumed at least one byte (strong
induction on the input length, mirroring the parameter loop). -/
theorem csiGo_some_shorter_aux (n : Nat) :
    ∀ (cs : CsiState) (input : List Byte), input.length ≤ n →
      ∀ s' t rest, csiGo cs input = (s', some t, rest) → rest.length < input.length := by
  induction n with
  | zero =>
    intro cs input hlen s' t rest h
    have : input = [] := by
      cases input
      · rfl
      · simp at hlen
    subst this
    rw [csiGo] at h
    simp at h
  | succ n ih =>
    intro cs input hlen s' t rest h
    rw [csiGo] at h
    split at h
    · simp at h
    next b rest2 hr =>
      have hlen2 : rest2.length < input.length := by
        have := dropWhile_length_le isCsiDigitByte input
        rw [hr] at this
        simp at this
        omega
      split at h
      · rw [Prod.mk.injEq, Prod.mk.injEq] at h
        exact h.2.2 ▸ hlen2
      · have := ih _ rest2 (by omega) s' t rest h
        omega

/-- A call that produced a token consumed at least one byte. -/
theorem csiGo_some_shorter (cs : CsiState) (input : List Byte)
    (s' : VtState) (t : VtToken) (rest : List Byte)
    (h : csiGo cs input = (s', some t, rest)) : rest.length < input.length :=
  csiGo_some_shorter_aux input.length cs input le_rfl s' t rest h

/-- An `oscGo` call that produced a token consumed at least one byte. -/
theorem oscGo_some_shorter_aux (n : Nat) :
    ∀ (isOsc : Bool) (cs : CsiState) (input : List Byte), input.length ≤ n →
      ∀ s' t rest, oscGo isOsc cs input = (s', some t, rest) → rest.length < input.length := by
  induction n with
  | zero =>
    intro isOsc cs input hlen s' t rest h
    have : input = [] := by
      cases input
      · rfl
      · simp at hlen
    subst this
    rw [oscGo] at h
    simp at h
  | succ n ih =>
    intro isOsc cs input hlen s' t rest h
    cases input with
    | nil =>
      rw [oscGo] at h
      simp at h
    | cons q qrest =>
      rw [oscGo] at h
      split at h
      · rw [Prod.mk.injEq, Prod.mk.injEq] at h
        rw [← h.2.2]
        simp
      next b rest2 hr =>
        have hlen2 : rest2.length < (q :: qrest).length := by
          have := dropWhile_length_le isOscPlainByte (q :: qrest)
          rw [hr] at this
          simp at this ⊢
          omega
        split at h
        · split at h
          · rw [Prod.mk.injEq, Prod.mk.injEq] at h
            rw [← h.2.2]
            simp
          next c rest3 hr2 =>
            split at h
            · rw [Prod.mk.injEq, Prod.mk.injEq] at h
              rw [← h.2.2]
              simp at hlen2 ⊢
              omega
            · have hlen3 : (c :: rest3).length ≤ n := by
                simp at hlen hlen2 ⊢
                omega
              have := ih isOsc cs (c :: rest3) hlen3 s' t rest h
              simp at hlen2 this ⊢
              omega
        · rw [Prod.mk.injEq, Prod.mk.injEq] at h
          exact h.2.2 ▸ hlen2

/-- A call that produced a token consumed at least one byte. -/
theorem oscGo_some_shorter (isOsc : Bool) (cs : CsiState) (input : List Byte)
    (s' : VtState) (t : VtToken) (rest : List Byte)
    (h : oscGo isOsc cs input = (s', some t, rest)) : rest.length < input.length :=
  oscGo_some_shorter_aux input.length isOsc cs input le_rfl s' t rest h

/-- A call that produced a token consumed at least one byte. -/
theorem ss3Go_some_shorter (cs : CsiState) (input : List Byte)
    (s' : VtState) (t : VtToken) (rest : List Byte)
    (h : ss3Go cs input = (s', some t, rest)) : rest.length < input.length := by
  cases input with
  | nil => simp [ss3Go] at h
  | cons a l =>
    rw [ss3Go, Prod.mk.injEq, Prod.mk.injEq] at h
    rw [← h.2.2]
    simp

/-- A call that produced a token consumed at least one byte. -/
theorem oscEscGo_some_shorter (isOsc : Bool) (cs : CsiState) (input : List Byte)
    (s' : VtState) (t : VtToken) (rest : List Byte)
    (h : oscEscGo isOsc cs input = (s', some t, rest)) : rest.length < input.length := by
  cases input with
  | nil => simp [oscEscGo] at h
  | cons a l =>
    rw [oscEscGo] at h
    split at h
    · rw [Prod.mk.injEq, Prod.mk.injEq] at h
      rw [← h.2.2]
      simp
    · exact oscGo_some_shorter _ _ _ _ _ _ h

/-- A call that produced a token consumed at least one byte. -/
theorem escGo_some_shorter (cs : CsiState) (input : List Byte)
    (s' : VtState) (t : VtToken) (rest : List Byte)
    (h : escGo cs input = (s', some t, rest)) : rest.length < input.length := by
  cases input with
  | nil => simp [escGo] at h
  | cons a l =>
    have hl : l.length < (a :: l).length := by simp
    rw [escGo] at h
    split at h
    · exact lt_trans (csiGo_some_shorter _ _ _ _ _ h) hl
    · split at h
      · exact lt_trans (oscGo_some_shorter _ _ _ _ _ _ h) hl
      · split at h
        · exact lt_trans (ss3Go_some_shorter _ _ _ _ _ h) hl
        · split at h
          · exact lt_trans (oscGo_some_shorter _ _ _ _ _ _ h) hl
          · rw [Prod.mk.injEq, Prod.mk.injEq] at h
            exact h.2.2 ▸ hl

/-- A call that produced a token consumed at least one byte. -/
theorem groundGo_some_shorter (cs : CsiState) (input : List Byte)
    (s' : VtState) (t : VtToken) (rest : List Byte)
    (h : groundGo cs input = (s', some t, rest)) : rest.length < input.length := by
  cases input with
  | nil => simp [groundGo] at h
  | cons a l =>
    have hl : l.length < (a :: l).length := by simp
    rw [groundGo] at h
    split at h
    · exact lt_trans (escGo_some_shorter _ _ _ _ _ h) hl
    next h27 =>
      split at h
      · rw [Prod.mk.injEq, Prod.mk.injEq] at h
        exact h.2.2 ▸ hl
      next hctrl =>
        rw [Prod.mk.injEq, Prod.mk.injEq] at h
        have ht : isTextByte a = true := by
          simp [isTextByte]
          push_neg at hctrl
          exact hctrl
        have hdw : (a :: l).dropWhile isTextByte = l.dropWhile isTextByte := by
          rw [List.dropWhile_cons, if_pos ht]
        rw [← h.2.2, hdw]
        have hle := dropWhile_length_le isTextByte l
        simp only [List.length_cons]
        omega

/-- A call that produced a token consumed at least one byte. -/
theorem parseOne_some_shorter (s : VtState) (input : List Byte)
    (s' : VtState) (t : VtToken) (rest : List Byte)
    (h : parseOne s input = (s', some t, rest)) : rest.length < input.length := by
  obtain ⟨mode, c⟩ := s
  cases mode
  all_goals simp only [parseOne] at h
  · exact groundGo_some_shorter _ _ _ _ _ h
  · exact escGo_some_shorter _ _ _ _ _ h
  · exact ss3Go_some_shorter _ _ _ _ _ h
  · exact csiGo_some_shorter _ _ _ _ _ h
  · exact oscGo_some_shorter _ _ _ _ _ _ h
  · exact oscGo_some_shorter _ _ _ _ _ _ h
  · exact oscEscGo_some_shorter _ _ _ _ _ _ h
  · exact oscEscGo_some_shorter _ _ _ _ _ _ h

/-! Evaluation lemmas: one equation per branch of the scanning loops,
driven by the shape of the `dropWhile` scan result. -/

theorem csiGo_eval_pending {input : List Byte} (cs : CsiState)
    (h : input.dropWhile isCsiDigitByte = []) :
    csiGo cs input = (⟨.csi, csiDigits cs (input.takeWhile isCsiDigitByte)⟩, none, []) := by
  rw [csiGo]
  split
  · rfl
  next b rest2 hr => rw [h] at hr; cases hr

theorem csiGo_eval_final {input : List Byte} (cs : CsiState) {b : Byte} {rest2 : List Byte}
    (h : input.dropWhile isCsiDigitByte = b :: rest2) (hb : 64 ≤ b ∧ b ≤ 126) :
    csiGo cs input =
      (⟨.ground, csiFinal (csiDigits cs (input.takeWhile isCsiDigitByte)) b⟩,
        some (.csi (csiFinal (csiDigits cs (input.takeWhile isCsiDigitByte)) b)), rest2) := by
  rw [csiGo]
  split
  next hr => rw [h] at hr; cases hr
  next b' rest2' hr =>
    rw [h] at hr
    cases hr
    rw [if_pos hb]

theorem csiGo_eval_cont {input : List Byte} (cs : CsiState) {b : Byte} {rest2 : List Byte}
    (h : input.dropWhile isCsiDigitByte = b :: rest2) (hb : ¬(64 ≤ b ∧ b ≤ 126)) :
    csiGo cs input =
      csiGo (csiSep (csiDigits cs (input.takeWhile isCsiDigitByte)) b) rest2 := by
  rw [csiGo]
  split
  next hr => rw [h] at hr; cases hr
  next b' rest2' hr =>
    rw [h] at hr
    cases hr
    rw [if_neg hb]

theorem oscGo_eval_nil {q : Byte} {qrest : List Byte} (isOsc : Bool) (cs : CsiState)
    (h : (q :: qrest).dropWhile isOscPlainByte = []) :
    oscGo isOsc cs (q :: qrest) = (⟨oscMode isOsc, cs⟩, some (oscToken isOsc), []) := by
  rw [oscGo]
  split
  · rfl
  next b rest2 hr => rw [h] at hr; cases hr

theorem oscGo_eval_escEnd {q : Byte} {qrest : List Byte} (isOsc : Bool) (cs : CsiState)
    (h : (q :: qrest).dropWhile isOscPlainByte = [27]) :
    oscGo isOsc cs (q :: qrest) = (⟨oscEscMode isOsc, cs⟩, some (oscToken isOsc), []) := by
  rw [oscGo]
  split
  next hr => rw [h] at hr; cases hr
  next b rest2 hr =>
    rw [h] at hr
    cases hr
    rw [if_pos rfl]

theorem oscGo_eval_st {q : Byte} {qrest : List Byte} (isOsc : Bool) (cs : CsiState)
    {rest3 : List Byte}
    (h : (q :: qrest).dropWhile isOscPlainByte = 27 :: 92 :: rest3) :
    oscGo isOsc cs (q :: qrest) = (⟨.ground, cs⟩, some (oscToken isOsc), rest3) := by
  rw [oscGo]
  split
  next hr => rw [h] at hr; cases hr
  next b rest2 hr =>
    rw [h] at hr
    cases hr
    simp

theorem oscGo_eval_escCont {q : Byte} {qrest : List Byte} (isOsc : Bool) (cs : CsiState)
    {c : Byte} {rest3 : List Byte}
    (h : (q :: qrest).dropWhile isOscPlainByte = 27 :: c :: rest3) (hc : ¬c = 92) :
    oscGo isOsc cs (q :: qrest) = oscGo isOsc cs (c :: rest3) := by
  rw [oscGo]
  split
  next hr => rw [h] at hr; cases hr
  next b rest2 hr =>
    rw [h] at hr
    cases hr
    simp [hc]

theorem oscGo_eval_bel {q : Byte} {qrest : List Byte} (isOsc : Bool) (cs : CsiState)
    {b : Byte} {rest2 : List Byte}
    (h : (q :: qrest).dropWhile isOscPlainByte = b :: rest2) (hb : ¬b = 27) :
    oscGo isOsc cs (q :: qrest) = (⟨.ground, cs⟩, some (oscToken isOsc), rest2) := by
  rw [oscGo]
  split
  next hr => rw [h] at hr; cases hr
  next b' rest2' hr =>
    rw [h] at hr
    cases hr
    rw [if_neg hb]

/-- Repeatedly calling `vt_parse_next_token` over one byte slice, as
`get_next_ui_input` does (input.c): collect the tokens of each call until the
slice is exhausted; the final machine state is returned for resumption with
the next slice.  A PENDING result ends the slice (it only occurs with the
input exhausted). -/
def vtRun (s : VtState) (input : List Byte) : List VtToken × VtState :=
  if hne : input = [] then ([], s)
  else
    match hp : parseOne s input with
    | (s', some t, rest) =>
      let r := vtRun s' rest
      (t :: r.1, r.2)
    | (s', none, _) => ([], s')
termination_by input.length
decreasing_by
  exact parseOne_some_shorter s input s' t rest hp

/-- Normalization step on an emitted token stream: a TEXT token followed by a
TEXT token is one TEXT token with the concatenated payload, and a partial
OSC/DCS emission followed by the continuation of the same sequence is that
one OSC/DCS sequence.  This coalescing absorbs the chunking the tokenizer
performs by design (TEXT runs and OSC/DCS payloads are emitted per buffer
slice); the divergence theorem below shows split feeding differs from whole
feeding even up to this equivalence. -/
def normStep (t : VtToken) (acc : List VtToken) : List VtToken :=
  match t, acc with
  | .text p, .text q :: r => .text (p ++ q) :: r
  | .osc, .osc :: r => .osc :: r
  | .dcs, .dcs :: r => .dcs :: r
  | t, acc => t :: acc

/-- Coalesced form of a token stream: adjacent TEXT tokens merged, adjacent
OSC (or DCS) tokens collapsed. -/
def vtNorm (ts : List VtToken) : List VtToken := ts.foldr normStep []

theorem vtRun_nil (s : VtState) : vtRun s [] = ([], s) := by
  rw [vtRun]
  simp

theorem vtRun_some {s : VtState} {input : List Byte} {s' : VtState} {t : VtToken}
    {rest : List Byte} (hne : input ≠ []) (hp : parseOne s input = (s', some t, rest)) :
    vtRun s input = (t :: (vtRun s' rest).1, (vtRun s' rest).2) := by
  rw [vtRun, dif_neg hne]
  split
  · rename_i s2 t2 r2 heq
    rw [hp, Prod.mk.injEq, Prod.mk.injEq, Option.some.injEq] at heq
    obtain ⟨h1, h2, h3⟩ := heq
    rw [← h1, ← h2, ← h3]
  · rename_i s2 r2 heq
    rw [hp] at heq
    simp at heq

theorem vtRun_none {s : VtState} {input : List Byte} {s' : VtState} {r : List Byte}
    (hne : input ≠ []) (hp : parseOne s input = (s', none, r)) :
    vtRun s input = ([], s') := by
  rw [vtRun, dif_neg hne]
  split
  · rename_i s2 t2 r2 heq
    rw [hp] at heq
    simp at heq
  · rename_i s2 r2 heq
    rw [hp, Prod.mk.injEq, Prod.mk.injEq] at heq
    rw [← heq.1]

/-- C2, the by-design chunking half: the raw token sequences differ across a
split even in the benign TEXT case — "ab" fed whole is one TEXT token, fed
as "a" then "b" it is two TEXT tokens. -/
theorem vt_split_resumption_counterexample :
    (vtRun vtInit [97, 98]).1 ≠
      (vtRun vtInit [97]).1 ++ (vtRun (vtRun vtInit [97]).2 [98]).1 := by
  have h1 : parseOne vtInit [97, 98] =
      (⟨.ground, csiReset⟩, some (.text [97, 98]), []) := rfl
  have h2 : parseOne vtInit [97] =
      (⟨.ground, csiReset⟩, some (.text [97]), []) := rfl
  have h3 : parseOne (⟨.ground, csiReset⟩ : VtState) [98] =
      (⟨.ground, csiReset⟩, some (.text [98]), []) := rfl
  have hAB : vtRun vtInit [97, 98] = ([VtToken.text [97, 98]], ⟨.ground, csiReset⟩) := by
    rw [vtRun_some (by simp) h1, vtRun_nil]
  have hA : vtRun vtInit [97] = ([VtToken.text [97]], ⟨.ground, csiReset⟩) := by
    rw [vtRun_some (by simp) h2, vtRun_nil]
  have hBr : vtRun (⟨.ground, csiReset⟩ : VtState) [98] =
      ([VtToken.text [98]], ⟨.ground, csiReset⟩) := by
    rw [vtRun_some (by simp) h3, vtRun_nil]
  simp only [hAB, hA, hBr]
  decide

/-- C2: the claim fails, and not only by benign chunking.  For the stream
`ESC ] a ESC \ x` fed whole, the in-buffer `ESC \` terminates the OSC
sequence with the machine back in GROUND, so the tokens are
`[OSC, TEXT "x"]`.  Fed as `ESC ] a ESC` then `\ x`, the first slice parks
the machine in OSC_ESC (partial OSC emitted); resuming, the `\` emits the
OSC token but — the C bug — leaves `_state` = OSC_ESC instead of GROUND, so
the machine falls back into the OSC scan and swallows the trailing `x` into
a further OSC chunk: the tokens are `[OSC] ++ [OSC, OSC]`.  The two runs
disagree as raw sequences, still disagree after coalescing (`vtNorm`) —
`[OSC]` vs `[OSC, TEXT "x"]`, the `x` is lost — and end in different states
(GROUND vs OSC), so the divergence persists into all further input. -/
theorem vt_split_resumption_divergence :
    (vtRun vtInit [27, 93, 97, 27, 92, 120]).1 = [.osc, .text [120]] ∧
    (vtRun vtInit [27, 93, 97, 27]).1 ++
        (vtRun (vtRun vtInit [27, 93, 97, 27]).2 [92, 120]).1 = [.osc, .osc, .osc] ∧
    (vtRun vtInit [27, 93, 97, 27]).1 ++
        (vtRun (vtRun vtInit [27, 93, 97, 27]).2 [92, 120]).1 ≠
      (vtRun vtInit [27, 93, 97, 27, 92, 120]).1 ∧
    vtNorm ((vtRun vtInit [27, 93, 97, 27]).1 ++
        (vtRun (vtRun vtInit [27, 93, 97, 27]).2 [92, 120]).1) ≠
      vtNorm (vtRun vtInit [27, 93, 97, 27, 92, 120]).1 ∧
    (vtRun vtInit [27, 93, 97, 27, 92, 120]).2 = ⟨.ground, csiReset⟩ ∧
    (vtRun (vtRun vtInit [27, 93, 97, 27]).2 [92, 120]).2 = ⟨.osc, csiReset⟩ := by
  have h1 : parseOne vtInit [27, 93, 97, 27, 92, 120] =
      (⟨.ground, csiReset⟩, some .osc, [120]) := by
    show oscGo true csiReset [97, 27, 92, 120] = _
    exact oscGo_eval_st true csiReset (by decide)
  have h2 : parseOne (⟨.ground, csiReset⟩ : VtState) [120] =
      (⟨.ground, csiReset⟩, some (.text [120]), []) := rfl
  have hW : vtRun vtInit [27, 93, 97, 27, 92, 120] =
      ([.osc, .text [120]], ⟨.ground, csiReset⟩) := by
    rw [vtRun_some (by simp) h1, vtRun_some (by simp) h2, vtRun_nil]
  have hA1 : parseOne vtInit [27, 93, 97, 27] =
      (⟨.oscEsc, csiReset⟩, some .osc, []) := by
    show oscGo true csiReset [97, 27] = _
    exact oscGo_eval_escEnd true csiReset (by decide)
  have hA : vtRun vtInit [27, 93, 97, 27] = ([.osc], ⟨.oscEsc, csiReset⟩) := by
    rw [vtRun_some (by simp) hA1, vtRun_nil]
  have hB1 : parseOne (⟨.oscEsc, csiReset⟩ : VtState) [92, 120] =
      (⟨.oscEsc, csiReset⟩, some .osc, [120]) := rfl
  have hB2 : parseOne (⟨.oscEsc, csiReset⟩ : VtState) [120] =
      (⟨.osc, csiReset⟩, some .osc, []) := by
    show oscGo true csiReset [120] = _
    exact oscGo_eval_nil true csiReset (by decide)
  have hB : vtRun (⟨.oscEsc, csiReset⟩ : VtState) [92, 120] =
      ([.osc, .osc], ⟨.osc, csiReset⟩) := by
    rw [vtRun_some (by simp) hB1, vtRun_some (by simp) hB2, vtRun_nil]
  simp only [hW, hA, hB]
  decide

/-! The RESIZE branch of the input classifier (input.c). -/

/-- The RESIZE payload of `UiInput` (input.h): the window size in cells,
`i32` fields. -/
structure UiInputResize where
  width : Int
  height : Int
deriving DecidableEq

/-- The `case 't'` arm of the CSI dispatch in `get_next_ui_input`
(input.c 165-177), applied to the `CsiState` of a parsed CSI token: when
`params[0] == 8` it produces a RESIZE whose
`width = max(csi.params[2], 1)` and `height = max(csi.params[1], 1)`.
The `width < 32768 && height < 32768` condition is only an `assert`
(compiled out under NDEBUG), not a clamp, so it is not part of the
computation. -/
def classifyCsiResize (cs : CsiState) : Option UiInputResize :=
  if cs.finalByte = 116 ∧ cs.params 0 = 8 then
    some { width := max ((cs.params 2 : Int)) 1, height := max ((cs.params 1 : Int)) 1 }
  else none

/-- C4: the claim fails.  The classifier clamps the RESIZE width and height
only from below (`max(p, 1)`); the `< 32768` bound is an `assert`, not a
clamp.  The escape sequence `ESC [ 8 ; 1 ; 40000 t` is tokenized (from the
initial parser state) into a CSI token with `params = [8, 1, 40000]` and
final byte `t` — the accumulator saturates at 0xFFFF, far above 32768 — and
the classifier turns it into a RESIZE of width 40000, violating the claimed
`width < 32768` bound. -/
theorem resize_no_upper_clamp :
    ∃ cs : CsiState,
      parseOne vtInit [27, 91, 56, 59, 49, 59, 52, 48, 48, 48, 48, 116] =
        (⟨.ground, cs⟩, some (.csi cs), []) ∧
      cs.finalByte = 116 ∧ cs.params 0 = 8 ∧ cs.params 1 = 1 ∧ cs.params 2 = 40000 ∧
      classifyCsiResize cs = some ⟨40000, 1⟩ ∧ ¬((40000 : Int) < 32768) := by
  refine ⟨csiFinal
    (csiDigits (csiSep (csiDigits (csiSep (csiDigits csiReset [56]) 59) [49]) 59)
      [52, 48, 48, 48, 48]) 116, ?_, ?_, ?_, ?_, ?_, ?_, ?_⟩
  · show csiGo csiReset [56, 59, 49, 59, 52, 48, 48, 48, 48, 116] = _
    have hd1 : List.dropWhile isCsiDigitByte [56, 59, 49, 59, 52, 48, 48, 48, 48, 116] =
        59 :: [49, 59, 52, 48, 48, 48, 48, 116] := by decide
    rw [csiGo_eval_cont csiReset hd1 (by decide)]
    have hd2 : List.dropWhile isCsiDigitByte [49, 59, 52, 48, 48, 48, 48, 116] =
        59 :: [52, 48, 48, 48, 48, 116] := by decide
    rw [csiGo_eval_cont _ hd2 (by decide)]
    have hd3 : List.dropWhile isCsiDigitByte [52, 48, 48, 48, 48, 116] =
        116 :: [] := by decide
    rw [csiGo_eval_final _ hd3 (by decide)]
    decide
  · decide
  · decide
  · decide
  · decide
  · decide
  · decide

/-! ### Unicode oracle (ucd.h; no implementation under src/) -/

/-- `UcdMeasurement` from ucd.h. -/
structure UcdMeasurement where
  offset : Nat
  pos : Point
  movements : Int
  newline : Bool
deriving Repr, DecidableEq

/-- Modelled from the spec: the walking core of `ucd_measure_forward`
(spec 4.1): advance grapheme by grapheme, "stopping at the first of: reaching
`column_stop` terminal columns, advancing `cursor_movement_limit` grapheme
movements, or exhausting bytes", reporting "whether a newline terminated the
advance".  The model takes every byte as one grapheme of one column and
`0x0A` as the newline; a stop at a newline leaves the offset at the newline
byte (it is not consumed), matching the callers in buffer.c that must not
cross a line boundary when walking within a line.  A negative `column_stop`
or `limit` means no such stop (the C passes `-1`/`COORD_TYPE_MAX`). -/
def measFwdGo (bytes : List Byte) (off : Nat) (pos : Point) (columnStop limit : Int)
    (movements : Int) : UcdMeasurement :=
  match bytes with
  | [] => ⟨off, pos, movements, false⟩
  | b :: rest =>
    if 0 ≤ limit ∧ movements ≥ limit then ⟨off, pos, movements, false⟩
    else if b = 10 then ⟨off, pos, movements, true⟩
    else if 0 ≤ columnStop ∧ pos.x ≥ columnStop then ⟨off, pos, movements, false⟩
    else measFwdGo rest (off + 1) ⟨pos.x + 1, pos.y⟩ columnStop limit (movements + 1)

/-- Modelled from the spec: `ucd_measure_forward` (spec 4.1).  The optional
`out_line_break` parameter "reports the latest column where wrapping could
legally occur"; with every byte a one-column grapheme a break is legal
everywhere, so the line-break report coincides with the main measurement and
the callers below use the measurement itself for it. -/
def ucdMeasureForward (str : List Byte) (off : Nat) (pos : Point)
    (columnStop limit : Int) : UcdMeasurement :=
  measFwdGo (str.drop off) off pos columnStop limit 0

/-- Modelled from the spec: the walking core of `ucd_measure_backward`
(spec 4.1), which is "symmetric" to the forward walk and "may return a
negative `x` if a newline was crossed".  `bytes` is the reversed prefix being
walked; crossing a newline counts as one movement, moves to the previous line
and reports column `-1`.  The modelled code paths only call this with
`column_stop = -1` (no column stop), which is the behaviour modelled here. -/
def measBwdGo (bytes : List Byte) (off : Nat) (pos : Point) (limit : Int)
    (movements : Int) : UcdMeasurement :=
  match bytes with
  | [] => ⟨off, pos, movements, false⟩
  | b :: rest =>
    if 0 ≤ limit ∧ movements ≥ limit then ⟨off, pos, movements, false⟩
    else if b = 10 then
      measBwdGo rest (off - 1) ⟨-1, pos.y - 1⟩ limit (movements + 1)
    else measBwdGo rest (off - 1) ⟨pos.x - 1, pos.y⟩ limit (movements + 1)

/-- Modelled from the spec: `ucd_measure_backward` (spec 4.1). -/
def ucdMeasureBackward (str : List Byte) (off : Nat) (pos : Point)
    (columnStop limit : Int) : UcdMeasurement :=
  measBwdGo ((str.take off).reverse) off pos limit 0

/-- Modelled from the spec: `ucd_newlines_forward` (spec 4.1): "advance until
`*line` reaches `line_stop`, returning the new offset" — the offset ends just
after the newline that made the line counter reach `line_stop` (the start of
that line), or at the end of the slice. -/
def nlFwdGo (bytes : List Byte) (off : Nat) (line lineStop : Int) : Nat × Int :=
  match bytes with
  | [] => (off, line)
  | b :: rest =>
    if line ≥ lineStop then (off, line)
    else if b = 10 then nlFwdGo rest (off + 1) (line + 1) lineStop
    else nlFwdGo rest (off + 1) line lineStop

/-- Modelled from the spec: `ucd_newlines_forward` entry point. -/
def ucdNewlinesForward (str : List Byte) (off : Nat) (line lineStop : Int) : Nat × Int :=
  nlFwdGo (str.drop off) off line lineStop

/-- Modelled from the spec: the backward walk of `ucd_newlines_backward`
(spec 4.1): move the offset backwards to the start of line `line_stop`,
i.e. to just after the newline that ends line `line_stop - 1`; a newline may
only be crossed while the current line is still beyond `line_stop`.  If the
slice holds no such newline the walk ends at the start of the slice (the
caller continues with the previous chunk).  `bytes` is the reversed prefix
being walked. -/
def nlBwdGo (bytes : List Byte) (off : Nat) (line lineStop : Int) : Nat × Int :=
  match bytes with
  | [] => (off, line)
  | b :: rest =>
    if b = 10 then
      if line ≤ lineStop then (off, line)
      else nlBwdGo rest (off - 1) (line - 1) lineStop
    else nlBwdGo rest (off - 1) line lineStop

/-- Modelled from the spec: `ucd_newlines_backward` entry point. -/
def ucdNewlinesBackward (str : List Byte) (off : Nat) (line lineStop : Int) : Nat × Int :=
  nlBwdGo ((str.take off).reverse) off line lineStop

/-! ### Text store operations (buffer.c) -/

/-- `text_buffer_read_forward` (buffer.c): the view from native offset `off`
to the end of the buffer half it lies in (`[off, gap_off)` before the gap,
`[off, text_length)` after). -/
def textBufferReadForward (tb : TextBuffer) (off : Nat) : List Byte :=
  if off < tb.gap_off then tb.pre.drop off
  else tb.post.drop (off - tb.gap_off)

/-- `text_buffer_read_backward` (buffer.c): the view ending at native offset
`off` that extends to the beginning of the buffer half it lies in
(`[0, off)` at or before the gap, `[gap_off, off)` after). -/
def textBufferReadBackward (tb : TextBuffer) (off : Nat) : List Byte :=
  if off ≤ tb.gap_off then tb.pre.take off
  else tb.post.take (off - tb.gap_off)

/-- `text_buffer_extract` (buffer.c): the bytes of `[beg, end)` in native
indices; out-of-range requests yield nothing (`return 0`). -/
def textBufferExtract (tb : TextBuffer) (beg yend : Nat) : List Byte :=
  if beg ≥ yend ∨ yend > tb.text_length then []
  else ((tb.pre ++ tb.post).drop beg).take (yend - beg)

/-- `text_buffer_allocate_gap` (buffer.c): move the gap to `off` (clamped to
the text length; content-wise this re-splits `pre`/`post` at `off`) and, when
`len` exceeds the current gap, grow it to
`(len + 2048 + 4095) & ~4095` (`TEXT_BUFFER_GAP_CHUNK_BYTES` = 4096 with half
a chunk of padding). -/
def textBufferAllocateGap (tb : TextBuffer) (off len : Nat) : TextBuffer :=
  let off := min off tb.text_length
  let content := tb.pre ++ tb.post
  let tb := { tb with pre := content.take off, post := content.drop off }
  if len > tb.gap_len then
    { tb with gap_len := (len + 2048 + 4095) / 4096 * 4096 }
  else tb

/-- `text_buffer_commit_gap` (buffer.c): absorb `min(staged.length, gap_len)`
bytes that the caller copied to the start of the gap into the pre-gap half
(`gap_off += len; gap_len -= len; text_length += len`). -/
def textBufferCommitGap (tb : TextBuffer) (staged : List Byte) : TextBuffer :=
  let len := min staged.length tb.gap_len
  { tb with pre := tb.pre ++ staged.take len, gap_len := tb.gap_len - len }

/-- The all-zero `TextBufferChange` (what `memset(_, 0, sizeof)` leaves). -/
def zeroChange : TextBufferChange :=
  { prev := none, next := none,
    cursor := { offset := 0, logical_pos := ⟨0, 0⟩, visual_pos := ⟨0, 0⟩ },
    removed := [], inserted := [] }

/-- Store update: set record `i`'s `next` pointer. -/
def changeSetNext (store : List TextBufferChange) (i : Nat) (nxt : Option Nat) :
    List TextBufferChange :=
  store.mapIdx fun j c => if j = i then { c with next := nxt } else c

/-- Store update performed at the end of `text_buffer_undo`/`redo`: store the
given cursor in record `i` and swap its `removed`/`inserted` strings. -/
def changeRecordFlip (store : List TextBufferChange) (i : Nat)
    (cur : TextBufferCursor) : List TextBufferChange :=
  store.mapIdx fun j c =>
    if j = i then { c with cursor := cur, removed := c.inserted, inserted := c.removed }
    else c

/-- `text_buffer_record_push_change` (buffer.c).  `sizeof(TextBufferChange)`
is 88 on x64; the undo arena reallocation rounds the committed size up to
64KiB chunks and — a C quirk kept by the model — `undo_usage` is then set to
that rounded size, and a growth with a live `undo_tail` zeroes record 0
(`memset(tb->undo_base, 0, sizeof(TextBufferChange))`).  The new record
captures the current cursor, the extracted `[beg, end)` bytes as `removed`
and `replacement` as `inserted`, is linked after `undo_tail`, and becomes the
new tail; `dirty` is set. -/
def textBufferRecordPushChange (tb : TextBuffer) (beg yend : Nat)
    (replacement : List Byte) : TextBuffer :=
  if beg > yend ∨ yend > tb.text_length then tb
  else
    let removed_len := yend - beg
    let space_needed := 88 + removed_len + replacement.length
    let usage_next0 := tb.undo_usage + space_needed
    let grow := usage_next0 > tb.undo_commit
    let usage_next := if grow then (usage_next0 + 65535) / 65536 * 65536 else usage_next0
    let commit2 := if grow then usage_next else tb.undo_commit
    let store0 :=
      if grow ∧ tb.undo_tail ≠ none then
        match tb.undo_store with
        | [] => []
        | _ :: rest => zeroChange :: rest
      else tb.undo_store
    let removed := textBufferExtract tb beg yend
    let idx := store0.length
    let store1 :=
      match tb.undo_tail with
      | some t => changeSetNext store0 t (some idx)
      | none => store0
    let change : TextBufferChange :=
      { prev := tb.undo_tail
        next := none
        cursor := tb.cursor
        removed := removed
        inserted := replacement }
    { tb with
      undo_store := store1 ++ [change]
      undo_tail := some idx
      undo_usage := usage_next
      undo_commit := commit2
      dirty := true }

/-! ### Cursor motion (buffer.c lines 360-605)

The C loops below advance a byte offset through the buffer; each carries a
fuel parameter that the entry points instantiate with `text_length + 1`,
which exceeds the number of iterations any terminating C execution performs
(every iteration that does not exit consumes at least one byte).  An
execution the C would not complete (its loops can fail to make progress, e.g.
a wrap walk whose measurement stops immediately) is truncated by the fuel;
the concrete runs used in the theorems below stay far inside the fuel. -/

/-- The forward phase of `text_buffer_goto_line_start` (buffer.c): while the
target line is below, read forward and skip newlines toward it. -/
def gotoLineFwdLoop : Nat → TextBuffer → Int → TextBuffer
  | 0, tb, _ => tb
  | fuel + 1, tb, y =>
    if y > tb.cursor.logical_pos.y then
      let chunk := textBufferReadForward tb tb.cursor.offset
      if chunk.length = 0 then tb
      else
        let r := ucdNewlinesForward chunk 0 tb.cursor.logical_pos.y y
        let tb2 := { tb with cursor := { tb.cursor with
          offset := tb.cursor.offset + r.1
          logical_pos := { tb.cursor.logical_pos with y := r.2 } } }
        gotoLineFwdLoop fuel tb2 y
    else tb

/-- The backward `do`-`while` of `text_buffer_goto_line_start` (buffer.c):
read backward and retreat to the start of line `y`; the loop body always runs
once and repeats while the current line is still beyond `y`. -/
def gotoLineBwdLoop : Nat → TextBuffer → Int → TextBuffer
  | 0, tb, _ => tb
  | fuel + 1, tb, y =>
    let chunk := textBufferReadBackward tb tb.cursor.offset
    if chunk.length = 0 then tb
    else
      let r := ucdNewlinesBackward chunk chunk.length tb.cursor.logical_pos.y y
      let tb2 := { tb with cursor := { tb.cursor with
        offset := tb.cursor.offset - (chunk.length - r.1)
        logical_pos := { tb.cursor.logical_pos with y := r.2 } } }
      if y < tb2.cursor.logical_pos.y then gotoLineBwdLoop fuel tb2 y else tb2

/-- The wrapped-line counting loop of `text_buffer_goto_line_start`
(buffer.c, word-wrap branch): count how many wrap points lie between `offset`
and `goal`; `pos` is fixed across iterations as in the C. -/
def wrapDeltaLoop : Nat → TextBuffer → Nat → Nat → Point → Int → Int
  | 0, _, _, _, _, delta => delta
  | fuel + 1, tb, offset, goal, pos, delta =>
    let chunk := textBufferReadForward tb offset
    if chunk.length = 0 then delta
    else
      let wrap := ucdMeasureForward chunk 0 pos tb.word_wrap_columns (-1)
      let offset2 := offset + wrap.offset
      if offset2 ≥ goal then delta
      else wrapDeltaLoop fuel tb offset2 goal pos (delta + 1)

/-- `text_buffer_goto_line_start` (buffer.c lines 360-445): seek the cursor
to the start of logical line `y`.  Walks forward when the target is below
(with the no-trailing-newline fallback that re-targets the previous line and
falls into the backward walk), otherwise walks backward; then zeroes
`logical_pos.x` and recomputes `visual_pos` — directly without wrap, by
counting crossed wrap points with wrap on. -/
def textBufferGotoLineStart (tb0 : TextBuffer) (y0 : Int) : TextBuffer :=
  let start_offset := tb0.cursor.offset
  let fwdTaken := y0 > tb0.cursor.logical_pos.y
  let tbA := if fwdTaken then gotoLineFwdLoop (tb0.text_length + 1) tb0 y0 else tb0
  let skipBwd := fwdTaken ∧ tbA.cursor.offset ≠ tbA.text_length
  let yB := if fwdTaken ∧ tbA.cursor.offset = tbA.text_length then
      tbA.cursor.logical_pos.y - 1
    else y0
  let tbB := if skipBwd then tbA else gotoLineBwdLoop (tbA.text_length + 1) tbA yB
  let tbC := { tbB with cursor := { tbB.cursor with
    logical_pos := { tbB.cursor.logical_pos with x := 0 } } }
  if tbC.word_wrap_columns < 0 then
    { tbC with cursor := { tbC.cursor with
      visual_pos := ⟨0, tbC.cursor.logical_pos.y⟩ } }
  else
    let movedDown := start_offset < tbC.cursor.offset
    let posx : Int := if movedDown then tbC.cursor.visual_pos.x else 0
    let offset := if movedDown then start_offset else tbC.cursor.offset
    let goal := if movedDown then tbC.cursor.offset else start_offset
    let delta0 :=
      if offset < goal then
        wrapDeltaLoop (tbC.text_length + 1) tbC offset goal ⟨posx, 0⟩ 0
      else 0
    let delta := if start_offset > tbC.cursor.offset then -delta0 else delta0
    { tbC with cursor := { tbC.cursor with
      visual_pos := ⟨0, tbC.cursor.visual_pos.y + delta⟩ } }

/-- The no-wrap grapheme walk of `text_buffer_cursor_move_to_logical`
(buffer.c): advance toward logical column `x`, breaking when a measurement
stops inside its chunk. -/
def moveLogNoWrapLoop : Nat → TextBuffer → Int → TextBuffer
  | 0, tb, _ => tb
  | fuel + 1, tb, x =>
    if x > tb.cursor.logical_pos.x then
      let chunk := textBufferReadForward tb tb.cursor.offset
      if chunk.length = 0 then tb
      else
        let m := ucdMeasureForward chunk 0 tb.cursor.visual_pos (-1)
          (x - tb.cursor.logical_pos.x)
        let tb2 := { tb with cursor :=
          { offset := tb.cursor.offset + m.offset
            logical_pos := { tb.cursor.logical_pos with
              x := tb.cursor.logical_pos.x + m.movements }
            visual_pos := m.pos } }
        if m.offset < chunk.length then tb2 else moveLogNoWrapLoop fuel tb2 x
    else tb

/-- The word-wrap grapheme walk of `text_buffer_cursor_move_to_logical`
(buffer.c): the line-break report (here equal to the measurement, see
`ucdMeasureForward`) is committed and the visual cursor wraps to the next row
whenever the measurement consumed its whole chunk. -/
def moveLogWrapLoop : Nat → TextBuffer → Int → TextBuffer
  | 0, tb, _ => tb
  | fuel + 1, tb, x =>
    let chunk := textBufferReadForward tb tb.cursor.offset
    if chunk.length = 0 then tb
    else
      let m := ucdMeasureForward chunk 0 tb.cursor.visual_pos tb.word_wrap_columns
        (x - tb.cursor.logical_pos.x)
      let tb2 := { tb with cursor :=
        { offset := tb.cursor.offset + m.offset
          logical_pos := { tb.cursor.logical_pos with
            x := tb.cursor.logical_pos.x + m.movements }
          visual_pos := m.pos } }
      if m.offset < chunk.length then tb2
      else
        moveLogWrapLoop fuel
          { tb2 with cursor := { tb2.cursor with visual_pos := ⟨0, m.pos.y + 1⟩ } } x

/-- `text_buffer_cursor_move_to_logical` (buffer.c lines 465-517): clamp the
target to non-negative coordinates, seek the line start, then walk graphemes
toward the target column (the C returns `tb->cursor.offset`; the model
returns the buffer, on which the callers read the cursor). -/
def textBufferMoveToLogical (tb0 : TextBuffer) (pos : Point) : TextBuffer :=
  let x := max pos.x 0
  let y := max pos.y 0
  let tb1 := textBufferGotoLineStart tb0 y
  if tb1.word_wrap_columns < 0 then moveLogNoWrapLoop (tb1.text_length + 1) tb1 x
  else if x > tb1.cursor.logical_pos.x then moveLogWrapLoop (tb1.text_length + 1) tb1 x
  else tb1

/-- `text_buffer_cursor_move_delta` (buffer.c) for `±1` (the only deltas the
modelled callers pass): move one grapheme left/right, falling to the line
end/start of the neighbouring line when the position did not change
(`COORD_TYPE_SAFE_MAX` = 32767). -/
def textBufferMoveDelta (tb : TextBuffer) (movements : Int) : TextBuffer :=
  if movements < 0 then
    let offset := tb.cursor.offset
    let tb2 := textBufferMoveToLogical tb
      ⟨tb.cursor.logical_pos.x - 1, tb.cursor.logical_pos.y⟩
    if offset = tb2.cursor.offset then
      textBufferMoveToLogical tb2 ⟨32767, tb2.cursor.logical_pos.y - 1⟩
    else tb2
  else if movements > 0 then
    let offset := tb.cursor.offset
    let tb2 := textBufferMoveToLogical tb
      ⟨tb.cursor.logical_pos.x + 1, tb.cursor.logical_pos.y⟩
    if offset = tb2.cursor.offset then
      textBufferMoveToLogical tb2 ⟨0, tb2.cursor.logical_pos.y + 1⟩
    else tb2
  else tb

/-- `text_buffer_reflow` (buffer.c lines 447-463): non-positive widths mean
wrap off (`-1`); when the width actually changes, remember the logical
position, zero the cursor and re-seek it under the new width. -/
def textBufferReflow (tb : TextBuffer) (width0 : Int) : TextBuffer :=
  let width := if width0 ≤ 0 then -1 else width0
  if tb.word_wrap_columns = width then tb
  else
    let pos := tb.cursor.logical_pos
    let tb2 := { tb with
      word_wrap_columns := width
      cursor := { offset := 0, logical_pos := ⟨0, 0⟩, visual_pos := ⟨0, 0⟩ } }
    textBufferMoveToLogical tb2 pos

/-! ### Undo log replay and writing (buffer.c lines 633-754) -/

/-- `text_buffer_apply_change` (buffer.c lines 633-668) on the record at
index `i`: restore the record's cursor, open a gap there sized for the
removal/insertion delta, delete the previously inserted bytes to the right of
the gap, commit the previously removed bytes back in, then re-derive the
cursor by backing off one grapheme and measuring forward over the affected
range (`visual_pos` keeps the restored record value). -/
def textBufferApplyChange (tb0 : TextBuffer) (i : Nat) : TextBuffer :=
  let change := tb0.undo_store.getD i zeroChange
  let tb1 := { tb0 with cursor := change.cursor }
  let gapNeed := max change.removed.length change.inserted.length - change.inserted.length
  let tb2 := textBufferAllocateGap tb1 tb1.cursor.offset gapNeed
  let count := change.inserted.length
  let tb3 := { tb2 with post := tb2.post.drop count, gap_len := tb2.gap_len + count }
  let tb4 := textBufferCommitGap tb3 change.removed
  let cursor_before := tb4.cursor
  let tb5 := textBufferMoveDelta tb4 (-1)
  let backoff := cursor_before.offset - tb5.cursor.offset
  let chunk := (textBufferReadForward tb5 tb5.cursor.offset).take
    (backoff + change.removed.length)
  let after := ucdMeasureForward chunk 0 tb5.cursor.logical_pos 2147483647 2147483647
  { tb5 with cursor := { tb5.cursor with
    offset := tb5.cursor.offset + after.offset
    logical_pos := after.pos } }

/-- `text_buffer_undo` (buffer.c lines 670-686): no-op when `undo_tail` is
NULL; otherwise step the tail back, apply the record, and flip it (store the
post-apply cursor and swap `removed`/`inserted`) so it serves redo. -/
def textBufferUndo (tb : TextBuffer) : TextBuffer :=
  match tb.undo_tail with
  | none => tb
  | some t =>
    let change := tb.undo_store.getD t zeroChange
    let tb1 := { tb with undo_tail := change.prev }
    let tb2 := textBufferApplyChange tb1 t
    { tb2 with undo_store := changeRecordFlip tb2.undo_store t tb2.cursor }

/-- `text_buffer_redo` (buffer.c lines 688-713): start from `undo_tail`, or
from `undo_base` (record 0) when fully undone, or give up when the log was
never allocated; then follow that record's `next` pointer — a NULL `next`
is a no-op.  (Since record 0 *is* the first change record, redo after a full
undo replays record 0's successor, skipping record 0 itself.)  A replay
applies the record and flips it, storing the pre-redo cursor. -/
def textBufferRedo (tb : TextBuffer) : TextBuffer :=
  let c0 : Option Nat :=
    match tb.undo_tail with
    | some t => some t
    | none => match tb.undo_store with
      | [] => none
      | _ :: _ => some 0
  match c0 with
  | none => tb
  | some c =>
    match (tb.undo_store.getD c zeroChange).next with
    | none => tb
    | some c1 =>
      let cursor := tb.cursor
      let tb1 := { tb with undo_tail := some c1 }
      let tb2 := textBufferApplyChange tb1 c1
      { tb2 with undo_store := changeRecordFlip tb2.undo_store c1 cursor }

/-- `text_buffer_write` (buffer.c lines 715-754): empty writes return
immediately; otherwise the bytes are staged in a gap at the cursor, the new
cursor is measured over the native prefix `pre ++ str` (backing off one
grapheme unless at offset 0 or after a tab, to account for combining), an
undo record is pushed for the replaced range (empty unless in overtype, where
it covers the grapheme under the cursor), the gap is committed and the
replaced range absorbed into the gap.  `visual_pos` is not updated.  (In the
overtype absorb step the C leaves its `text_length` field stale — it shrinks
the text without decrementing the length; the model's derived `text_length`
shrinks, which is the only divergence, and no modelled claim takes the
overtype path.) -/
def textBufferWrite (tb0 : TextBuffer) (str : List Byte) : TextBuffer :=
  if str.length = 0 then tb0
  else
    let tb := textBufferAllocateGap tb0 tb0.cursor.offset str.length
    let text := tb.pre ++ str
    let gap_off := tb.gap_off
    let noBack := gap_off = 0 ∨ tb.pre.getD (gap_off - 1) 0 = 9
    let prev_bck : UcdMeasurement :=
      if noBack then ⟨gap_off, tb.cursor.logical_pos, 0, false⟩
      else ucdMeasureBackward text gap_off tb.cursor.logical_pos (-1) 1
    let prev_fwd : UcdMeasurement :=
      if noBack then ⟨gap_off, tb.cursor.logical_pos, 0, false⟩
      else ucdMeasureForward text prev_bck.offset prev_bck.pos (-1) 1
    let next := ucdMeasureForward text prev_fwd.offset prev_fwd.pos (-1) (-1)
    let offs : Nat × Nat :=
      if tb.overtype then
        let fwd := ucdMeasureForward (textBufferReadForward tb tb.cursor.offset) 0
          tb.cursor.logical_pos 2147483647 next.movements
        let combines := prev_fwd.offset ≠ gap_off
        ((if combines then prev_bck.offset else prev_fwd.offset), gap_off + fwd.offset)
      else (tb.cursor.offset, tb.cursor.offset)
    let tb := textBufferRecordPushChange tb offs.1 offs.2 str
    let tb := textBufferCommitGap tb str
    let tb := { tb with
      post := tb.post.drop (offs.2 - offs.1)
      gap_len := tb.gap_len + (offs.2 - offs.1) }
    { tb with cursor := { tb.cursor with
      offset := next.offset
      logical_pos := next.pos } }

/-- C9: `text_buffer_write` with an empty string returns before touching
anything (`if (str.len == 0) return;`): the buffer — undo log, dirty flag,
gap, text, cursor, selection — is exactly unchanged. -/
theorem write_empty_is_noop (tb : TextBuffer) : textBufferWrite tb [] = tb := rfl

/-- C10: the undo/redo guards are exact no-ops.  `text_buffer_undo` returns
untouched when `undo_tail` is NULL; `text_buffer_redo` returns untouched when
the record it starts from (the tail, or record 0 after a full undo) has a
NULL `next`, and when the log was never allocated. -/
theorem undo_redo_guard_noop (tb : TextBuffer) :
    (tb.undo_tail = none → textBufferUndo tb = tb) ∧
    (∀ t, tb.undo_tail = some t →
      (tb.undo_store.getD t zeroChange).next = none → textBufferRedo tb = tb) ∧
    (tb.undo_tail = none → tb.undo_store = [] → textBufferRedo tb = tb) ∧
    (∀ c rest, tb.undo_tail = none → tb.undo_store = c :: rest → c.next = none →
      textBufferRedo tb = tb) := by
  refine ⟨?_, ?_, ?_, ?_⟩
  · intro h
    simp only [textBufferUndo, h]
  · intro t ht hn
    simp only [textBufferRedo, ht, hn]
  · intro h hs
    simp only [textBufferRedo, h, hs]
  · intro c rest h hs hn
    simp only [textBufferRedo, h, hs, List.getD_cons_zero, hn]

/-- Witness for `undo_redo_guard_noop`: a fresh buffer (NULL tail, empty log)
and a buffer whose single record has no successor. -/
theorem undo_redo_guard_noop_witness :
    textBufferUndo textBufferCreate = textBufferCreate ∧
    textBufferRedo textBufferCreate = textBufferCreate ∧
    textBufferRedo { textBufferCreate with undo_store := [zeroChange], undo_tail := some 0 } =
      { textBufferCreate with undo_store := [zeroChange], undo_tail := some 0 } :=
  ⟨(undo_redo_guard_noop textBufferCreate).1 rfl,
   (undo_redo_guard_noop textBufferCreate).2.2.1 rfl rfl,
   (undo_redo_guard_noop _).2.1 0 rfl rfl⟩

/-- C1: the claim fails in its redo half.  On a fresh buffer,
`write("hello")` makes the contents `"hello"`; `undo()` does restore the
contents and cursor to their pre-write state; but `redo()` is then a
complete no-op — the buffer stays empty instead of returning to the
post-write state.  Cause: with `undo_tail` NULL after the full undo, redo
starts from `undo_base`, but `undo_base` *is* the first change record, so
redo replays its `next` (NULL here) and returns, never replaying the first
record itself. -/
theorem write_undo_redo_divergence :
    (textBufferExtract (textBufferWrite textBufferCreate [104, 101, 108, 108, 111]) 0 5 =
      [104, 101, 108, 108, 111]) ∧
    (let tb2 := textBufferUndo (textBufferWrite textBufferCreate [104, 101, 108, 108, 111])
     textBufferExtract tb2 0 tb2.text_length = [] ∧
     tb2.cursor = textBufferCreate.cursor) ∧
    (textBufferRedo (textBufferUndo (textBufferWrite textBufferCreate
        [104, 101, 108, 108, 111])) =
      textBufferUndo (textBufferWrite textBufferCreate [104, 101, 108, 108, 111])) ∧
    (textBufferExtract (textBufferRedo (textBufferUndo (textBufferWrite textBufferCreate
        [104, 101, 108, 108, 111]))) 0 5 ≠ [104, 101, 108, 108, 111]) := by
  decide

/-- The buffer of the C6 run: contents "abc" (gap at the end), one line, wrap
off, cursor at the end of the line. -/
def reflowDemoBuffer : TextBuffer :=
  { textBufferCreate with
    pre := [97, 98, 99]
    stats_lines := 1
    cursor := { offset := 3, logical_pos := ⟨3, 0⟩, visual_pos := ⟨3, 0⟩ } }

/-- C6: the claim fails (under the spec-modelled Unicode oracle).  On a
buffer holding "abc" with the cursor at logical (3,0), `reflow(2)` followed
by `reflow(-1)` leaves `cursor.logical_pos` at (2,0): re-seeking the cursor
under width 2, the grapheme walk of `move_to_logical` stops at the wrap
column with its measurement mid-chunk and `if (m.offset < chunk.len) break;`
exits the walk before the target column, instead of wrapping and continuing;
the follow-up `reflow(-1)` then faithfully re-seeks the already-lost
position. -/
theorem reflow_roundtrip_moves_cursor :
    (textBufferReflow (textBufferReflow reflowDemoBuffer 2) (-1)).cursor.logical_pos =
      ⟨2, 0⟩ ∧
    reflowDemoBuffer.cursor.logical_pos = ⟨3, 0⟩ ∧
    (textBufferReflow (textBufferReflow reflowDemoBuffer 2) (-1)).cursor.logical_pos ≠
      reflowDemoBuffer.cursor.logical_pos := by
  decide

/-- The buffer of the C7 run: contents "abcd" with the gap between "ab" and
"cd", one line, wrap off, cursor at the origin. -/
def moveDemoBuffer : TextBuffer :=
  { textBufferCreate with
    pre := [97, 98]
    post := [99, 100]
    stats_lines := 1 }

/-- C7: the claim fails (under the spec-modelled Unicode oracle).  On a
buffer holding "abcd" with the gap after "ab", `move_to_logical((3,0))` puts
the cursor at offset 3, logical (3,0); the *same* call again moves it to
offset 4, logical (2,0).  Cause: the backward `do`-`while` of
`goto_line_start` always runs once, and with the cursor past the gap the
backward chunk ends at the gap; no newline is found in it, so the cursor
retreats only to the gap boundary (offset 2) — not to the line start — and
the loop exits because the line number already equals the target; the
grapheme walk then starts from offset 2 with `logical_pos.x` reset to 0. -/
theorem move_to_logical_not_idempotent :
    (textBufferMoveToLogical moveDemoBuffer ⟨3, 0⟩).cursor =
      ⟨3, ⟨3, 0⟩, ⟨3, 0⟩⟩ ∧
    (textBufferMoveToLogical (textBufferMoveToLogical moveDemoBuffer ⟨3, 0⟩) ⟨3, 0⟩).cursor =
      ⟨4, ⟨2, 0⟩, ⟨2, 0⟩⟩ ∧
    (textBufferMoveToLogical (textBufferMoveToLogical moveDemoBuffer ⟨3, 0⟩) ⟨3, 0⟩).cursor ≠
      (textBufferMoveToLogical moveDemoBuffer ⟨3, 0⟩).cursor := by
  decide

/-! ### ui_root_reset mouse handling (tui.c lines 502-541) -/

/-- `MouseAction` from the input header (in declaration order; the C range
check `>= MOUSE_ACTION_LEFT && <= MOUSE_ACTION_RIGHT` selects exactly
`left`, `middle`, `right`). -/
inductive MouseAction where
  | none
  | release
  | left
  | middle
  | right
  | scroll
deriving Repr, DecidableEq

/-- A node of the previous frame's tree as the `ui_root_reset` mouse branch
reads it: its `id`, its `inner_clipped` rect, and its children in document
order (the `child_first`/`sibling_next` chain). -/
inductive UiTree where
  | node (id : Nat) (inner_clipped : Rect) (children : List UiTree)

/-- The node sequence in the order the `ui_root_reset` traversal visits it:
the node itself, then each child subtree in order (pre-order).  `fuel` bounds
the tree depth (the callers pass a value at least the actual depth; the C
traversal has no such bound). -/
def preorderNodes : Nat → UiTree → List (Nat × Rect)
  | 0, _ => []
  | fuel + 1, .node i r cs => (i, r) :: cs.flatMap fun c => preorderNodes fuel c

/-- The hit-test loop of `ui_root_reset` (tui.c lines 506-526): visit the
nodes in pre-order and overwrite `best` with every node whose `inner_clipped`
contains the pointer. -/
def bestHit (nodes : List (Nat × Rect)) (pos : Point) : Option Nat :=
  nodes.foldl (fun best nr => if rectContains nr.2 pos then some nr.1 else best) none

/-- The mouse case of `ui_root_reset` (tui.c lines 502-541): hit-test the
previous frame's forest; synthesise RELEASE when the previous action was a
button press and the new one is NONE; on a LEFT action with a hit, focus the
hit node's id (the focus otherwise carries over from the previous frame).
Returns the stored mouse action and the new `focused_item_id`. -/
def uiRootResetMouse (fuel : Nat) (roots : List UiTree) (prevAction : MouseAction)
    (prevFocus : Nat) (pos : Point) (action : MouseAction) : MouseAction × Nat :=
  let best := bestHit (roots.flatMap fun r => preorderNodes fuel r) pos
  let action2 :=
    if (prevAction = .left ∨ prevAction = .middle ∨ prevAction = .right) ∧ action = .none
    then .release else action
  let focus :=
    match best with
    | some i => if action2 = .left then i else prevFocus
    | none => prevFocus
  (action2, focus)

/-- The containing nodes annotated with their depth (roots at depth 0), in
pre-order. -/
def hitsWithDepth : Nat → Nat → Point → UiTree → List (Nat × Nat)
  | 0, _, _, _ => []
  | fuel + 1, depth, pos, .node i r cs =>
    (if rectContains r pos then [(depth, i)] else []) ++
      cs.flatMap fun c => hitsWithDepth fuel (depth + 1) pos c

/-- The spec's words, for comparison with the source's `bestHit`: "the
deepest node of the previous frame's tree whose `inner_clipped` contains the
pointer" — the containing node of maximal depth (the first such in pre-order
when tied). -/
def specDeepestHit (fuel : Nat) (roots : List UiTree) (pos : Point) : Option Nat :=
  ((roots.flatMap fun r => hitsWithDepth fuel 0 pos r).foldl
    (fun acc e =>
      match acc with
      | Option.none => some e
      | some a => if e.1 > a.1 then some e else acc) none).map Prod.snd

/-- The overwrite fold of the hit-test loop keeps the last match: it equals
the first match of the reversed visit order. -/
theorem bestHit_foldl_eq_find (pos : Point) (ns : List (Nat × Rect)) :
    ∀ init : Option Nat,
      ns.foldl (fun best nr => if rectContains nr.2 pos then some nr.1 else best) init =
        match ns.reverse.find? (fun nr => rectContains nr.2 pos) with
        | some e => some e.1
        | Option.none => init := by
  induction ns with
  | nil =>
    intro init
    simp
  | cons n ns ih =>
    intro init
    simp only [List.foldl_cons, List.reverse_cons, List.find?_append]
    rw [ih]
    cases h : ns.reverse.find? fun nr => rectContains nr.2 pos with
    | some e => simp [h, Option.orElse]
    | none =>
      by_cases hp : rectContains n.2 pos <;> simp [h, hp, Option.orElse, List.find?]

/-- C8 (amended): the mouse branch stores RELEASE exactly when the previous
frame's action was a button press (LEFT/MIDDLE/RIGHT) and the new one is
NONE; the hit-test candidate is the *pre-order-last* node of the previous
frame's forest whose `inner_clipped` contains the pointer (the loop
overwrites `best` on every containment in visit order) — not the deepest
such node, which the counterexample separates; on a LEFT press with a hit
the focus becomes the candidate's id, and with no hit the focus carries
over. -/
theorem ui_root_reset_mouse_contract (fuel : Nat) (roots : List UiTree)
    (prevAction : MouseAction) (prevFocus : Nat) (pos : Point) (action : MouseAction) :
    ((uiRootResetMouse fuel roots prevAction prevFocus pos action).1 =
      if (prevAction = .left ∨ prevAction = .middle ∨ prevAction = .right) ∧
          action = .none
      then .release else action) ∧
    (bestHit (roots.flatMap fun r => preorderNodes fuel r) pos =
      ((roots.flatMap fun r => preorderNodes fuel r).reverse.find?
        fun nr => rectContains nr.2 pos).map Prod.fst) ∧
    (∀ i, bestHit (roots.flatMap fun r => preorderNodes fuel r) pos = some i →
      action = .left →
      (uiRootResetMouse fuel roots prevAction prevFocus pos action).2 = i) ∧
    (bestHit (roots.flatMap fun r => preorderNodes fuel r) pos = Option.none →
      (uiRootResetMouse fuel roots prevAction prevFocus pos action).2 = prevFocus) := by
  refine ⟨rfl, ?_, ?_, ?_⟩
  · rw [bestHit, bestHit_foldl_eq_find]
    cases (roots.flatMap fun r => preorderNodes fuel r).reverse.find?
        fun nr => rectContains nr.2 pos with
    | some e => rfl
    | none => rfl
  · intro i hb ha
    subst ha
    simp only [uiRootResetMouse, hb]
    simp
  · intro hb
    simp only [uiRootResetMouse, hb]

/-- The C8 counterexample forest: one root (id 1) containing the pointer,
whose first child (id 2) contains it and has a containing grandchild (id 3,
depth 2), followed by a containing second child (id 4, depth 1).  The
traversal visits 1, 2, 3, 4 and keeps id 4; the deepest containing node is
id 3. -/
def hitDemoForest : List UiTree :=
  [.node 1 ⟨0, 0, 20, 20⟩
    [.node 2 ⟨0, 0, 10, 10⟩ [.node 3 ⟨4, 4, 8, 8⟩ []],
     .node 4 ⟨3, 3, 12, 12⟩ []]]

/-- C8 counterexample: at pointer (5,5) the loop selects id 4 (pre-order
last), the spec's deepest containing node is id 3, and a LEFT press focuses
id 4. -/
theorem ui_hit_test_counterexample :
    bestHit (hitDemoForest.flatMap fun r => preorderNodes 3 r) ⟨5, 5⟩ = some 4 ∧
    specDeepestHit 3 hitDemoForest ⟨5, 5⟩ = some 3 ∧
    (uiRootResetMouse 3 hitDemoForest .none 0 ⟨5, 5⟩ .left).2 = 4 ∧
    bestHit (hitDemoForest.flatMap fun r => preorderNodes 3 r) ⟨5, 5⟩ ≠
      specDeepestHit 3 hitDemoForest ⟨5, 5⟩ := by
  decide

/-- Witness for `ui_root_reset_mouse_contract` at the demo forest: a LEFT
press at (5,5) focuses node 4, and the contract applied there discharges its
hypotheses. -/
theorem ui_root_reset_mouse_contract_witness :
    (uiRootResetMouse 3 hitDemoForest .none 0 ⟨5, 5⟩ .left).2 = 4 :=
  (ui_root_reset_mouse_contract 3 hitDemoForest .none 0 ⟨5, 5⟩ .left).2.2.1 4
    (by decide) rfl

end Edit
